import Mathlib

/-!
Verification of the content model and composition/parsing pipeline of the
kishieel.github.io repository.

The repository is a statically rendered portfolio/resume site with a blog.
The parts embedded here:

* the navigation shell (src/src/components/navigation.tsx): active-route
  marking by string-prefix matching on the current pathname;
* the blog page (src/src/app/blog/page.tsx): a main element whose sole child
  is the Navigation component;
* the resume document composer over Section / Position / raw-block
  specifications (src/src/app/page.tsx, src/src/components/Section.tsx);
  the Position component file is imported by page.tsx but absent from the
  sources, so its heading level is modelled from the spec;
* the post-metadata parser and the post collection.  No parser or collection
  code exists in the sources (only the raw post documents under _posts/), so
  both are modelled from the spec.
-/

/- ### Character-level string comparison helpers

Executable orderings over the character lists of strings; these stand in for
the built-in host-language lexicographic string comparison. -/

/-- Lexicographic less-or-equal on character lists. -/
def charListLe : List Char → List Char → Bool
  | [], _ => true
  | _ :: _, [] => false
  | a :: as, b :: bs => if a = b then charListLe as bs else decide (a < b)

/-- Does the first character list start with the second one? -/
def startsWithChars : List Char → List Char → Bool
  | _, [] => true
  | [], _ :: _ => false
  | a :: as, b :: bs => a = b && startsWithChars as bs

/-- Lexicographic less-or-equal on strings. -/
def strLe (s t : String) : Bool := charListLe s.data t.data

/-- The proposition that one string is lexicographically at most another. -/
def strLeProp : String → String → Prop := fun a b => strLe a b = true

instance : DecidableRel strLeProp := fun a b => by
  unfold strLeProp; infer_instance

theorem charListLe_total (as bs : List Char) :
    charListLe as bs = true ∨ charListLe bs as = true := by
  induction as generalizing bs with
  | nil => exact Or.inl rfl
  | cons a as ih =>
    cases bs with
    | nil => exact Or.inr rfl
    | cons b bs =>
      by_cases hab : a = b
      · subst hab
        simpa [charListLe] using ih bs
      · rcases lt_or_gt_of_ne hab with h | h
        · exact Or.inl (by simp [charListLe, hab, h])
        · exact Or.inr (by simp [charListLe, Ne.symm hab, h])

theorem charListLe_trans (as bs cs : List Char)
    (h1 : charListLe as bs = true) (h2 : charListLe bs cs = true) :
    charListLe as cs = true := by
  induction as generalizing bs cs with
  | nil => rfl
  | cons a as ih =>
    cases bs with
    | nil => simp [charListLe] at h1
    | cons b bs =>
      cases cs with
      | nil => simp [charListLe] at h2
      | cons c cs =>
        by_cases hab : a = b <;> by_cases hbc : b = c
        · subst hab; subst hbc
          simp only [charListLe, if_pos rfl] at h1 h2 ⊢
          exact ih bs cs h1 h2
        · subst hab
          simp only [charListLe, if_pos rfl] at h1
          simp only [charListLe, if_neg hbc, decide_eq_true_eq] at h2
          simp [charListLe, hbc, h2]
        · subst hbc
          simp only [charListLe, if_neg hab, decide_eq_true_eq] at h1
          simp [charListLe, hab, h1]
        · simp only [charListLe, if_neg hab, decide_eq_true_eq] at h1
          simp only [charListLe, if_neg hbc, decide_eq_true_eq] at h2
          have hac : a < c := lt_trans h1 h2
          simp [charListLe, ne_of_lt hac, hac]

theorem charListLe_antisymm (as bs : List Char)
    (h1 : charListLe as bs = true) (h2 : charListLe bs as = true) : as = bs := by
  induction as generalizing bs with
  | nil =>
    cases bs with
    | nil => rfl
    | cons b bs => simp [charListLe] at h2
  | cons a as ih =>
    cases bs with
    | nil => simp [charListLe] at h1
    | cons b bs =>
      by_cases hab : a = b
      · subst hab
        simp only [charListLe, if_pos rfl] at h1 h2
        exact congrArg (a :: ·) (ih bs h1 h2)
      · simp only [charListLe, if_neg hab, decide_eq_true_eq] at h1
        simp only [charListLe, if_neg (Ne.symm hab), decide_eq_true_eq] at h2
        exact absurd h2 (not_lt_of_gt h1)

theorem strLeProp_total (a b : String) : strLeProp a b ∨ strLeProp b a :=
  charListLe_total a.data b.data

theorem strLeProp_trans (a b c : String)
    (h1 : strLeProp a b) (h2 : strLeProp b c) : strLeProp a c :=
  charListLe_trans a.data b.data c.data h1 h2

theorem strLeProp_antisymm (a b : String)
    (h1 : strLeProp a b) (h2 : strLeProp b a) : a = b := by
  have hd : a.data = b.data := charListLe_antisymm a.data b.data h1 h2
  cases a; cases b
  exact congrArg String.mk hd

instance : IsTotal String strLeProp := ⟨strLeProp_total⟩

instance : IsTrans String strLeProp := ⟨strLeProp_trans⟩

instance : IsAntisymm String strLeProp := ⟨strLeProp_antisymm⟩

/- ### Navigation shell (src/src/components/navigation.tsx)

The component reads the current pathname and renders one link per route,
setting the aria-current marker to "page" exactly when the pathname starts
with the route string. -/

/-- Active-route test of the navigation component: the route is active when
the current pathname starts with the route string. -/
def isActiveRoute (currentPath route : String) : Bool :=
  startsWithChars currentPath.data route.data

/-- A rendered navigation link: its target route and its aria-current
attribute (some "page" when highlighted as the active route). -/
structure NavLink where
  href : String
  ariaCurrent : Option String
deriving Repr, DecidableEq

/-- The two links rendered by the Navigation component for a given
pathname, in source order. -/
def renderNavigation (pathname : String) : List NavLink :=
  [ { href := "/resume",
      ariaCurrent :=
        if isActiveRoute pathname "/resume" then some "page" else none },
    { href := "/blog",
      ariaCurrent :=
        if isActiveRoute pathname "/blog" then some "page" else none } ]

/- ### Blog page (src/src/app/blog/page.tsx) -/

/-- A rendered view fragment: a main element with children, the Navigation
component, a single-post view, or a post-list view. -/
inductive ViewNode where
  | mainEl (children : List ViewNode)
  | navigationView
  | postView (postId : String)
  | postListView (postIds : List String)
deriving Repr

mutual

/-- Whether a view consumes or displays any post data. -/
def consumesPosts : ViewNode → Bool
  | .mainEl cs => consumesPostsList cs
  | .navigationView => false
  | .postView _ => true
  | .postListView _ => true

/-- Whether any view in a list consumes or displays post data. -/
def consumesPostsList : List ViewNode → Bool
  | [] => false
  | v :: vs => consumesPosts v || consumesPostsList vs

end

/-- The blog page render: a main element whose only child is the Navigation
component. -/
def blogPage : ViewNode := .mainEl [.navigationView]

/- ### Resume document composer

src/src/app/page.tsx hard-codes the resume as an ordered list of Section
elements, each owning its Position and raw-block children in source order;
src/src/components/Section.tsx renders a Section heading as an h1 element
(structural heading level 1).  The Position component file is imported but
absent from the sources.

Modelled from the spec: the compose operation over Section specifications
(DocumentComposer, spec section 4.3) and the Position heading level (one
structural level below the h1 of the owning Section) are not present as code in
the repository and are modelled from the words of the spec. -/

/-- A content block inside a Position body: a paragraph or a list. -/
inductive ContentBlock where
  | paragraph (text : String)
  | listBlock (items : List String)
deriving Repr, DecidableEq

/-- An entry owned by a Section: a Position or a raw content block. -/
inductive EntrySpec where
  | position (heading : String) (timeRange : Option String)
      (body : List ContentBlock)
  | rawBlock (text : String)
deriving Repr, DecidableEq

/-- A top-level item of the resume source: a Section specification or,
erroneously, a Position supplied with no owning Section. -/
inductive TopSpec where
  | sectionSpec (heading : String) (entries : List EntrySpec)
  | orphanPosition (heading : String) (timeRange : Option String)
      (body : List ContentBlock)
deriving Repr, DecidableEq

/-- A node of the composed document tree.  Heading-bearing nodes carry their
structural heading level; a Section renders at level 1 (the h1 element of
Section.tsx). -/
inductive DocNode where
  | sectionNode (heading : String) (level : Nat) (children : List DocNode)
  | positionNode (heading : String) (level : Nat) (timeRange : Option String)
      (body : List ContentBlock)
  | rawNode (text : String)
deriving Repr

/-- Composition failure: an entry appeared outside any owning Section. -/
inductive ComposeError where
  | orphanEntry
deriving Repr, DecidableEq

/-- Compose one entry of a Section whose heading sits at the given level:
the heading of a Position is rendered one structural level below it. -/
def composeEntry (parentLevel : Nat) : EntrySpec → DocNode
  | .position h t b => .positionNode h (parentLevel + 1) t b
  | .rawBlock s => .rawNode s

/-- Compose one top-level item: a Section becomes a level-1 section node
owning its children in the order given; a Position with no owning Section
is rejected. -/
def composeTop : TopSpec → Except ComposeError DocNode
  | .sectionSpec h es => .ok (.sectionNode h 1 (es.map (composeEntry 1)))
  | .orphanPosition _ _ _ => .error .orphanEntry

/-- Compose the whole resume source, walking the items in source order. -/
def compose : List TopSpec → Except ComposeError (List DocNode)
  | [] => .ok []
  | s :: rest =>
    match composeTop s with
    | .error e => .error e
    | .ok node =>
      match compose rest with
      | .error e => .error e
      | .ok nodes => .ok (node :: nodes)

/- ### Post metadata parser

Modelled from the spec: no parser code exists in the repository; only the
raw post documents under _posts/ (and src/unnamed/part_000, part_001) show
the metadata format.  Following spec section 9, the metadata block is
embedded as a flat list of field/value pairs whose values are tagged
(scalar string / number / date literal, list, nested object), preceded by a
flag recording whether the document opened with the delimiter marker. -/

/-- A point in time, as carried by a date literal and by a parsed post. -/
structure Timestamp where
  year : Nat
  month : Nat
  day : Nat
  hour : Nat
  minute : Nat
  second : Nat
deriving Repr, DecidableEq

/-- Days in a month, accounting for leap years. -/
def daysInMonth (year month : Nat) : Nat :=
  if month = 2 then
    if year % 4 = 0 && (year % 100 != 0 || year % 400 = 0) then 29 else 28
  else if month = 4 || month = 6 || month = 9 || month = 11 then 30
  else 31

/-- Whether a date literal denotes a valid point in time. -/
def validDate (d : Timestamp) : Bool :=
  decide (1 ≤ d.month) && decide (d.month ≤ 12) &&
  decide (1 ≤ d.day) && decide (d.day ≤ daysInMonth d.year d.month) &&
  decide (d.hour < 24) && decide (d.minute < 60) && decide (d.second < 60)

/-- Linearization of a timestamp: later points in time get larger keys. -/
def Timestamp.key (t : Timestamp) : Nat :=
  ((((t.year * 13 + t.month) * 32 + t.day) * 24 + t.hour) * 60 + t.minute)
    * 60 + t.second

/-- Chronological strict order on timestamps, component-lexicographic. -/
def Timestamp.lexLt (a b : Timestamp) : Prop :=
  a.year < b.year ∨ (a.year = b.year ∧
    (a.month < b.month ∨ (a.month = b.month ∧
      (a.day < b.day ∨ (a.day = b.day ∧
        (a.hour < b.hour ∨ (a.hour = b.hour ∧
          (a.minute < b.minute ∨
            (a.minute = b.minute ∧ a.second < b.second)))))))))

/-- A metadata field value: scalar (string, number or date literal), list of
strings, or nested object of field/value pairs. -/
inductive RawValue where
  | scalarStr (s : String)
  | scalarNum (n : Int)
  | scalarDate (d : Timestamp)
  | listVal (items : List String)
  | nested (fields : List (String × String))
deriving Repr, DecidableEq

/-- A raw post document: whether it opened with the metadata delimiter
marker, the field/value pairs of the metadata block in source order, and the
body text after the closing marker, passed through unparsed. -/
structure RawDoc where
  openedWithDelimiter : Bool
  fields : List (String × RawValue)
  body : String
deriving Repr, DecidableEq

/-- A parsed, normalized post.  The categories and tags are sets of strings,
kept in canonical form (sorted, deduplicated); unrecognized metadata fields
are preserved opaquely in extras. -/
structure Post where
  id : String
  title : String
  date : Timestamp
  categories : List String
  tags : List String
  image : Option (String × String)
  extras : List (String × RawValue)
  body : String
deriving Repr, DecidableEq

/-- Parse failures, per spec section 7. -/
inductive ParseError where
  | missingDelimiter
  | invalidDate
  | missingRequiredField
deriving Repr, DecidableEq

/-- First value bound to a field name in a metadata block. -/
def findField (name : String) : List (String × RawValue) → Option RawValue
  | [] => none
  | (k, v) :: rest => if k = name then some v else findField name rest

/-- First value bound to a name in a nested object block. -/
def findNested (name : String) : List (String × String) → Option String
  | [] => none
  | (k, v) :: rest => if k = name then some v else findNested name rest

/-- The field names the parser recognizes; all others pass through. -/
def knownField (k : String) : Bool :=
  k = "title" || k = "date" || k = "categories" || k = "tags" || k = "image"

/-- Decode a scalar string value. -/
def titleOf : RawValue → Option String
  | .scalarStr s => some s
  | _ => none

/-- Decode a date field: a date literal denoting a valid point in time. -/
def decodeDate : RawValue → Option Timestamp
  | .scalarDate d => if validDate d then some d else none
  | _ => none

/-- The strings carried by a list-valued (or single-string) field. -/
def stringsOf : Option RawValue → List String
  | some (.listVal items) => items
  | some (.scalarStr s) => [s]
  | _ => []

/-- Canonical set of strings: deduplicated and sorted, so that two sets are
equal exactly when they hold the same elements. -/
def normalizeSet (l : List String) : List String :=
  List.insertionSort strLeProp l.dedup

/-- Decode the image field: a nested object with path and caption. -/
def imageOf : Option RawValue → Option (String × String)
  | some (.nested fs) =>
    match findNested "path" fs, findNested "caption" fs with
    | some p, some c => some (p, c)
    | _, _ => none
  | _ => none

/-- Post identifier, derived deterministically from date plus title slug. -/
def deriveId (d : Timestamp) (title : String) : String :=
  toString d.year ++ "-" ++ toString d.month ++ "-" ++ toString d.day
    ++ "-" ++ title

/-- Parse a raw post document into a normalized Post, or fail: missing
delimiter, then missing title or date, then unparseable date. -/
def parse (raw : RawDoc) : Except ParseError Post :=
  if raw.openedWithDelimiter = false then .error .missingDelimiter
  else
    match findField "title" raw.fields with
    | none => .error .missingRequiredField
    | some tv =>
      match titleOf tv with
      | none => .error .missingRequiredField
      | some title =>
        match findField "date" raw.fields with
        | none => .error .missingRequiredField
        | some dv =>
          match decodeDate dv with
          | none => .error .invalidDate
          | some ts =>
            .ok { id := deriveId ts title
                  title := title
                  date := ts
                  categories :=
                    normalizeSet (stringsOf (findField "categories" raw.fields))
                  tags := normalizeSet (stringsOf (findField "tags" raw.fields))
                  image := imageOf (findField "image" raw.fields)
                  extras := raw.fields.filter (fun kv => !knownField kv.1)
                  body := raw.body }

/-- Re-serialize the normalized structured fields of a post as a fresh
metadata block (title, date, categories, tags). -/
def reserialize (p : Post) : RawDoc :=
  { openedWithDelimiter := true
    fields :=
      [ ("title", .scalarStr p.title)
      , ("date", .scalarDate p.date)
      , ("categories", .listVal p.categories)
      , ("tags", .listVal p.tags) ]
    body := p.body }

/- ### Post collection

Modelled from the spec: no collection code exists in the repository.  A
PostCollection holds its posts; add rejects duplicate ids; byDateDescending
is a derived view computed at query time. -/

/-- Collection failures, per spec section 7. -/
inductive CollectionError where
  | duplicateId
deriving Repr, DecidableEq

/-- An in-memory collection of parsed posts. -/
structure PostCollection where
  posts : List Post
deriving Repr, DecidableEq

/-- Whether the collection already holds a post with the given id. -/
def hasId (c : PostCollection) (i : String) : Bool :=
  c.posts.any (fun p => p.id = i)

/-- Add a post; fails with duplicateId when a post with the same id is
already in the collection. -/
def addPost (c : PostCollection) (p : Post) :
    Except CollectionError PostCollection :=
  if hasId c p.id then .error .duplicateId else .ok ⟨c.posts ++ [p]⟩

/-- Id uniqueness invariant of a collection. -/
def uniqueIds (c : PostCollection) : Prop :=
  (c.posts.map Post.id).Nodup

/-- Query-time ordering of posts: later date first, ties broken by id
ascending. -/
def postOrder (p q : Post) : Prop :=
  q.date.key < p.date.key ∨
    (p.date.key = q.date.key ∧ strLeProp p.id q.id)

instance : DecidableRel postOrder := fun p q => by
  unfold postOrder; infer_instance

instance : IsTotal Post postOrder := ⟨by
  intro a b
  rcases Nat.lt_trichotomy a.date.key b.date.key with h | h | h
  · exact Or.inr (Or.inl h)
  · rcases strLeProp_total a.id b.id with hs | hs
    · exact Or.inl (Or.inr ⟨h, hs⟩)
    · exact Or.inr (Or.inr ⟨h.symm, hs⟩)
  · exact Or.inl (Or.inl h)⟩

instance : IsTrans Post postOrder := ⟨by
  intro a b c hab hbc
  rcases hab with h1 | ⟨h1, h2⟩ <;> rcases hbc with h3 | ⟨h3, h4⟩
  · exact Or.inl (lt_trans h3 h1)
  · exact Or.inl (by omega)
  · exact Or.inl (by omega)
  · exact Or.inr ⟨by omega, strLeProp_trans a.id b.id c.id h2 h4⟩⟩

/-- The by-date-descending derived view, computed at query time. -/
def byDateDescending (c : PostCollection) : List Post :=
  List.insertionSort postOrder c.posts

/- ### Helper lemmas -/

theorem normalizeSet_sorted (l : List String) :
    List.Sorted strLeProp (normalizeSet l) :=
  List.sorted_insertionSort strLeProp l.dedup

theorem normalizeSet_nodup (l : List String) : (normalizeSet l).Nodup :=
  ((List.perm_insertionSort strLeProp l.dedup).nodup_iff).mpr (List.nodup_dedup l)

theorem normalizeSet_of_sorted_nodup (l : List String)
    (hs : List.Sorted strLeProp l) (hn : l.Nodup) : normalizeSet l = l := by
  unfold normalizeSet
  rw [List.dedup_eq_self.mpr hn]
  exact hs.insertionSort_eq

theorem normalizeSet_idem (l : List String) :
    normalizeSet (normalizeSet l) = normalizeSet l :=
  normalizeSet_of_sorted_nodup _ (normalizeSet_sorted l) (normalizeSet_nodup l)

theorem normalizeSet_perm_inv (l l2 : List String) (h : l.Perm l2) :
    normalizeSet l = normalizeSet l2 := by
  apply List.eq_of_perm_of_sorted _ (normalizeSet_sorted l) (normalizeSet_sorted l2)
  exact ((List.perm_insertionSort strLeProp l.dedup).trans h.dedup).trans
    (List.perm_insertionSort strLeProp l2.dedup).symm

theorem decodeDate_valid (v : RawValue) (ts : Timestamp)
    (h : decodeDate v = some ts) : validDate ts = true := by
  cases v with
  | scalarDate d =>
    by_cases hv : validDate d = true
    · simp only [decodeDate, hv, if_true, Option.some.injEq] at h
      exact h ▸ hv
    · simp [decodeDate, hv] at h
  | scalarStr s => simp [decodeDate] at h
  | scalarNum n => simp [decodeDate] at h
  | listVal items => simp [decodeDate] at h
  | nested fs => simp [decodeDate] at h

theorem daysInMonth_le (y m : Nat) : daysInMonth y m ≤ 31 := by
  unfold daysInMonth
  split_ifs <;> omega

theorem parse_ok_elim (raw : RawDoc) (p : Post) (h : parse raw = .ok p) :
    raw.openedWithDelimiter = true ∧
    validDate p.date = true ∧
    p.categories = normalizeSet (stringsOf (findField "categories" raw.fields)) ∧
    p.tags = normalizeSet (stringsOf (findField "tags" raw.fields)) ∧
    p.extras = raw.fields.filter (fun kv => !knownField kv.1) ∧
    p.body = raw.body := by
  unfold parse at h
  split at h
  · simp at h
  · rename_i hcond
    have hdel : raw.openedWithDelimiter = true := by
      cases hco : raw.openedWithDelimiter
      · exact absurd hco hcond
      · rfl
    split at h
    · simp at h
    · rename_i tv htv
      split at h
      · simp at h
      · rename_i title htitle
        split at h
        · simp at h
        · rename_i dv hdv
          split at h
          · simp at h
          · rename_i ts hts
            injection h with hp
            subst hp
            exact ⟨hdel, decodeDate_valid dv ts hts, rfl, rfl, rfl, rfl⟩

theorem compose_ok_nesting (specs : List TopSpec) (nodes : List DocNode)
    (hc : compose specs = .ok nodes) :
    ∀ node ∈ nodes, ∀ hd lvl children,
      node = DocNode.sectionNode hd lvl children →
      ∀ child ∈ children, ∀ ph pl pt pb,
        child = DocNode.positionNode ph pl pt pb → pl = lvl + 1 := by
  induction specs generalizing nodes with
  | nil =>
    simp only [compose, Except.ok.injEq] at hc
    subst hc
    intro node hmem
    simp at hmem
  | cons s rest ih =>
    intro node hmem hd lvl children hnode child hcmem ph pl pt pb hchild
    cases s with
    | sectionSpec sh es =>
      simp only [compose, composeTop] at hc
      cases hrest : compose rest with
      | error e => rw [hrest] at hc; simp at hc
      | ok nodes2 =>
        rw [hrest] at hc
        simp only [Except.ok.injEq] at hc
        subst hc
        rcases List.mem_cons.mp hmem with hhead | htail
        · subst hnode
          injection hhead with e1 e2 e3
          subst e2
          subst e3
          rcases List.mem_map.mp hcmem with ⟨entry, hemem, hentry⟩
          cases entry with
          | position qh qt qb =>
            rw [hchild] at hentry
            injection hentry with f1 f2
            omega
          | rawBlock s =>
            rw [hchild] at hentry
            exact absurd hentry (by simp [composeEntry])
        · exact ih nodes2 hrest node htail hd lvl children hnode
            child hcmem ph pl pt pb hchild
    | orphanPosition oh ot ob =>
      simp [compose, composeTop] at hc

theorem compose_orphan_fails (before : List TopSpec) (hd : String)
    (t : Option String) (b : List ContentBlock) (after : List TopSpec) :
    compose (before ++ TopSpec.orphanPosition hd t b :: after) =
      .error ComposeError.orphanEntry := by
  induction before with
  | nil => rfl
  | cons s bs ih =>
    cases s with
    | sectionSpec sh es =>
      simp only [List.cons_append, compose, composeTop]
      rw [show bs.append (TopSpec.orphanPosition hd t b :: after)
            = bs ++ TopSpec.orphanPosition hd t b :: after from rfl, ih]
    | orphanPosition oh ot ob => rfl

/- ### Claim theorems -/

/-- C9: For every current path, the navigation shell marks a route link as
the active one (aria-current set to "page") if and only if the current path
starts with the route string of that link, computed as a pure function of the
current path and the candidate route. -/
theorem nav_active_route_iff (pathname : String) (link : NavLink)
    (h : link ∈ renderNavigation pathname) :
    link.ariaCurrent = some "page" ↔
      isActiveRoute pathname link.href = true := by
  simp only [renderNavigation, List.mem_cons, List.not_mem_nil,
    or_false] at h
  rcases h with h | h <;> subst h
  · by_cases ha : isActiveRoute pathname "/resume" = true <;> simp [ha]
  · by_cases ha : isActiveRoute pathname "/blog" = true <;> simp [ha]

/-- Witness for C9 at the pathname "/resume/details" and its first rendered
link. -/
theorem nav_active_route_iff_witness :
    (({ href := "/resume", ariaCurrent := some "page" } : NavLink).ariaCurrent
        = some "page") ↔
      isActiveRoute "/resume/details"
        ({ href := "/resume", ariaCurrent := some "page" } : NavLink).href
        = true :=
  nav_active_route_iff "/resume/details"
    { href := "/resume", ariaCurrent := some "page" } (by decide)

/-- C10: the blog page render is exactly one main element containing only
the Navigation component; no post, post list, or collection query result is
consumed or displayed by the blog view. -/
theorem blog_page_only_navigation :
    blogPage = ViewNode.mainEl [ViewNode.navigationView] ∧
    consumesPosts blogPage = false := by
  constructor
  · rfl
  · simp [blogPage, consumesPosts, consumesPostsList]

/-- C3: compose walks the Section specifications in source order and keeps
the children of each Section in the order given — the output tree is the
element-wise image of the input list, with no reordering, sorting, or
deduplication — and composing the single Section "Skills" with raw block
"Problem-solving" yields one section node with exactly that child. -/
theorem compose_source_order (sections : List (String × List EntrySpec)) :
    compose (sections.map (fun s => TopSpec.sectionSpec s.1 s.2)) =
      .ok (sections.map (fun s =>
        DocNode.sectionNode s.1 1 (s.2.map (composeEntry 1)))) ∧
    compose [TopSpec.sectionSpec "Skills"
        [EntrySpec.rawBlock "Problem-solving"]] =
      .ok [DocNode.sectionNode "Skills" 1
        [DocNode.rawNode "Problem-solving"]] := by
  constructor
  · induction sections with
    | nil => rfl
    | cons s rest ih => simp [compose, composeTop, ih]
  · rfl

/-- C4: in every composed document, the heading level of a Position node is
exactly one below the heading level of its owning Section, and compose over a
Position specification with no enclosing Section fails with
ComposeError.orphanEntry. -/
theorem compose_nesting_invariant (specs : List TopSpec)
    (nodes : List DocNode) (hc : compose specs = .ok nodes) :
    (∀ node ∈ nodes, ∀ hd lvl children,
      node = DocNode.sectionNode hd lvl children →
      ∀ child ∈ children, ∀ ph pl pt pb,
        child = DocNode.positionNode ph pl pt pb → pl = lvl + 1) ∧
    (∀ hd t b before after,
      compose (before ++ TopSpec.orphanPosition hd t b :: after) =
        .error ComposeError.orphanEntry) :=
  ⟨compose_ok_nesting specs nodes hc,
   fun hd t b before after => compose_orphan_fails before hd t b after⟩

/-- Witness for C4 at a one-Section resume holding one Position. -/
theorem compose_nesting_invariant_witness :
    (∀ node ∈ [DocNode.sectionNode "Experience" 1
        [DocNode.positionNode "Engineer" 2 (some "2021 - 2023") []]],
      ∀ hd lvl children, node = DocNode.sectionNode hd lvl children →
      ∀ child ∈ children, ∀ ph pl pt pb,
        child = DocNode.positionNode ph pl pt pb → pl = lvl + 1) ∧
    (∀ hd t b before after,
      compose (before ++ TopSpec.orphanPosition hd t b :: after) =
        .error ComposeError.orphanEntry) :=
  compose_nesting_invariant
    [TopSpec.sectionSpec "Experience"
      [EntrySpec.position "Engineer" (some "2021 - 2023") []]]
    [DocNode.sectionNode "Experience" 1
      [DocNode.positionNode "Engineer" 2 (some "2021 - 2023") []]]
    rfl

/-- C8: compose is pure and deterministic — any two runs on the same input
list of Section specifications yield identical trees. -/
theorem compose_deterministic (run1 run2 : List TopSpec) (h : run1 = run2) :
    compose run1 = compose run2 := by
  rw [h]

/-- Witness for C8 at a concrete one-Section input. -/
theorem compose_deterministic_witness :
    compose [TopSpec.sectionSpec "Skills" [EntrySpec.rawBlock "Testing"]] =
      compose [TopSpec.sectionSpec "Skills" [EntrySpec.rawBlock "Testing"]] :=
  compose_deterministic
    [TopSpec.sectionSpec "Skills" [EntrySpec.rawBlock "Testing"]]
    [TopSpec.sectionSpec "Skills" [EntrySpec.rawBlock "Testing"]] rfl

/-- C2: byDateDescending returns a permutation of the posts of the collection
sorted by the total order that puts the post with the later date first and
breaks equal dates by lexicographically smaller id first; on valid
timestamps the date key ordering coincides with chronological
(lexicographic) order and equal keys mean equal dates. -/
theorem byDateDescending_total_order (c : PostCollection) :
    List.Perm (byDateDescending c) c.posts ∧
    List.Pairwise postOrder (byDateDescending c) ∧
    (∀ a b : Timestamp, validDate a = true → validDate b = true →
      ((a.key < b.key ↔ Timestamp.lexLt a b) ∧ (a.key = b.key ↔ a = b))) := by
  refine ⟨List.perm_insertionSort postOrder c.posts,
    List.sorted_insertionSort postOrder c.posts, ?_⟩
  intro a b ha hb
  obtain ⟨ya, moa, da, ha2, mia, sa⟩ := a
  obtain ⟨yb, mob, db, hb2, mib, sb⟩ := b
  have hda := daysInMonth_le ya moa
  have hdb := daysInMonth_le yb mob
  simp only [validDate, Bool.and_eq_true, decide_eq_true_eq] at ha hb
  simp only [Timestamp.key, Timestamp.lexLt, Timestamp.mk.injEq]
  omega

/-- Witness for C2 at the empty collection. -/
theorem byDateDescending_total_order_witness :
    List.Perm (byDateDescending ⟨[]⟩) (PostCollection.mk []).posts ∧
    List.Pairwise postOrder (byDateDescending ⟨[]⟩) ∧
    (∀ a b : Timestamp, validDate a = true → validDate b = true →
      ((a.key < b.key ↔ Timestamp.lexLt a b) ∧ (a.key = b.key ↔ a = b))) :=
  byDateDescending_total_order ⟨[]⟩

/-- C1: for every raw post document that opens with the metadata delimiter
but whose metadata block lacks the title field or the date field, parse
fails with ParseError.missingRequiredField — it never returns a Post with a
default date substituted. -/
theorem parse_missing_required_field (raw : RawDoc)
    (hdelim : raw.openedWithDelimiter = true)
    (hmiss : findField "title" raw.fields = none ∨
      findField "date" raw.fields = none) :
    parse raw = .error ParseError.missingRequiredField := by
  have hcond : ¬ (raw.openedWithDelimiter = false) := by simp [hdelim]
  unfold parse
  rw [if_neg hcond]
  rcases hmiss with h | h
  · rw [h]
  · split
    · rfl
    · split
      · rfl
      · rw [h]

/-- Witness for C1 at a delimited document with a title but no date. -/
theorem parse_missing_required_field_witness :
    parse { openedWithDelimiter := true
            fields := [("title", RawValue.scalarStr "A")]
            body := "b" } = .error ParseError.missingRequiredField :=
  parse_missing_required_field
    { openedWithDelimiter := true
      fields := [("title", RawValue.scalarStr "A")]
      body := "b" }
    rfl (Or.inr (by decide))

/-- C5: adding a post whose id is already in the collection fails with
CollectionError.duplicateId and yields no updated collection (no partial
mutation); the empty collection has unique ids and every successful add
preserves id uniqueness, so id uniqueness is an invariant of every
collection. -/
theorem addPost_duplicate_id (c : PostCollection) (p dup : Post)
    (hmem : dup ∈ c.posts) (hid : dup.id = p.id) :
    addPost c p = .error CollectionError.duplicateId ∧
    (∀ c2, addPost c p ≠ .ok c2) ∧
    uniqueIds ⟨[]⟩ ∧
    (∀ d r d2, uniqueIds d → addPost d r = .ok d2 → uniqueIds d2) := by
  have hdup : hasId c p.id = true := by
    simp only [hasId, List.any_eq_true, decide_eq_true_eq]
    exact ⟨dup, hmem, hid⟩
  refine ⟨by simp [addPost, hdup], by simp [addPost, hdup],
    by simp [uniqueIds], ?_⟩
  intro d r d2 hu hadd
  by_cases hh : hasId d r.id = true
  · simp [addPost, hh] at hadd
  · simp only [addPost, hh, Bool.false_eq_true, if_false,
      Except.ok.injEq] at hadd
    subst hadd
    have hnot : r.id ∉ d.posts.map Post.id := by
      intro hx
      rcases List.mem_map.mp hx with ⟨q, hq, hqid⟩
      exact hh (by
        simp only [hasId, List.any_eq_true, decide_eq_true_eq]
        exact ⟨q, hq, hqid⟩)
    simp only [uniqueIds, List.map_append, List.map_cons, List.map_nil]
    rw [List.nodup_append]
    refine ⟨hu, List.nodup_singleton r.id, ?_⟩
    intro x hx hx2
    rw [List.mem_singleton] at hx2
    subst hx2
    exact hnot hx

/-- Witness for C5: a one-post collection rejects a second post with the
same id. -/
theorem addPost_duplicate_id_witness :
    addPost
        ⟨[{ id := "p1", title := "A", date := ⟨2024, 1, 1, 0, 0, 0⟩,
            categories := [], tags := [], image := none, extras := [],
            body := "" }]⟩
        { id := "p1", title := "B", date := ⟨2024, 1, 2, 0, 0, 0⟩,
          categories := [], tags := [], image := none, extras := [],
          body := "" } = .error CollectionError.duplicateId ∧
    (∀ c2, addPost
        ⟨[{ id := "p1", title := "A", date := ⟨2024, 1, 1, 0, 0, 0⟩,
            categories := [], tags := [], image := none, extras := [],
            body := "" }]⟩
        { id := "p1", title := "B", date := ⟨2024, 1, 2, 0, 0, 0⟩,
          categories := [], tags := [], image := none, extras := [],
          body := "" } ≠ .ok c2) ∧
    uniqueIds ⟨[]⟩ ∧
    (∀ d r d2, uniqueIds d → addPost d r = .ok d2 → uniqueIds d2) :=
  addPost_duplicate_id
    ⟨[{ id := "p1", title := "A", date := ⟨2024, 1, 1, 0, 0, 0⟩,
        categories := [], tags := [], image := none, extras := [],
        body := "" }]⟩
    { id := "p1", title := "B", date := ⟨2024, 1, 2, 0, 0, 0⟩,
      categories := [], tags := [], image := none, extras := [],
      body := "" }
    { id := "p1", title := "A", date := ⟨2024, 1, 1, 0, 0, 0⟩,
      categories := [], tags := [], image := none, extras := [],
      body := "" }
    (by decide) rfl

/-- C6: parse recognizes exactly the field names title, date, categories,
tags and image; categories and tags decode to deduplicated sets of strings
with order irrelevant; every unrecognized field is preserved opaquely in
extras rather than rejected; and the worked example metadata block decodes
to the stated Post value. -/
theorem parse_recognized_fields :
    (∀ raw p, parse raw = .ok p →
      p.extras = raw.fields.filter (fun kv => !knownField kv.1) ∧
      p.categories.Nodup ∧ p.tags.Nodup) ∧
    (∀ k, knownField k = true ↔
      (k = "title" ∨ k = "date" ∨ k = "categories" ∨ k = "tags" ∨
        k = "image")) ∧
    (∀ l l2 : List String, l.Perm l2 → normalizeSet l = normalizeSet l2) ∧
    parse
        { openedWithDelimiter := true
          fields :=
            [ ("title", RawValue.scalarStr "Part 1")
            , ("date", RawValue.scalarDate ⟨2024, 5, 25, 0, 0, 0⟩)
            , ("categories", RawValue.listVal
                ["Software Engineering", "Web Development"])
            , ("tags", RawValue.listVal ["CouchDB", "Keycloak"]) ]
          body := "body text" } =
      .ok { id := "2024-5-25-Part 1"
            title := "Part 1"
            date := ⟨2024, 5, 25, 0, 0, 0⟩
            categories := ["Software Engineering", "Web Development"]
            tags := ["CouchDB", "Keycloak"]
            image := none
            extras := []
            body := "body text" } := by
  refine ⟨?_, ?_, normalizeSet_perm_inv, ?_⟩
  · intro raw p h
    obtain ⟨_, _, hcat, htag, hext, _⟩ := parse_ok_elim raw p h
    exact ⟨hext, hcat ▸ normalizeSet_nodup _, htag ▸ normalizeSet_nodup _⟩
  · intro k
    simp [knownField, or_assoc]
  · rfl

/-- Witness for C6: the opaque-preservation and dedup facts at the worked
example document. -/
theorem parse_recognized_fields_witness :
    ({ id := "2024-5-25-Part 1", title := "Part 1",
       date := ⟨2024, 5, 25, 0, 0, 0⟩,
       categories := ["Software Engineering", "Web Development"],
       tags := ["CouchDB", "Keycloak"], image := none, extras := [],
       body := "body text" } : Post).extras =
      ({ openedWithDelimiter := true
         fields :=
           [ ("title", RawValue.scalarStr "Part 1")
           , ("date", RawValue.scalarDate ⟨2024, 5, 25, 0, 0, 0⟩)
           , ("categories", RawValue.listVal
               ["Software Engineering", "Web Development"])
           , ("tags", RawValue.listVal ["CouchDB", "Keycloak"]) ]
         body := "body text" } : RawDoc).fields.filter
        (fun kv => !knownField kv.1) ∧
    ({ id := "2024-5-25-Part 1", title := "Part 1",
       date := ⟨2024, 5, 25, 0, 0, 0⟩,
       categories := ["Software Engineering", "Web Development"],
       tags := ["CouchDB", "Keycloak"], image := none, extras := [],
       body := "body text" } : Post).categories.Nodup ∧
    ({ id := "2024-5-25-Part 1", title := "Part 1",
       date := ⟨2024, 5, 25, 0, 0, 0⟩,
       categories := ["Software Engineering", "Web Development"],
       tags := ["CouchDB", "Keycloak"], image := none, extras := [],
       body := "body text" } : Post).tags.Nodup :=
  parse_recognized_fields.1
    { openedWithDelimiter := true
      fields :=
        [ ("title", RawValue.scalarStr "Part 1")
        , ("date", RawValue.scalarDate ⟨2024, 5, 25, 0, 0, 0⟩)
        , ("categories", RawValue.listVal
            ["Software Engineering", "Web Development"])
        , ("tags", RawValue.listVal ["CouchDB", "Keycloak"]) ]
      body := "body text" }
    { id := "2024-5-25-Part 1", title := "Part 1",
      date := ⟨2024, 5, 25, 0, 0, 0⟩,
      categories := ["Software Engineering", "Web Development"],
      tags := ["CouchDB", "Keycloak"], image := none, extras := [],
      body := "body text" }
    rfl

/-- C7: for every raw post document with a well-formed metadata block —
one that parse accepts — re-serializing the normalized fields and parsing
again recovers the same title, date, categories and tags. -/
theorem parse_reserialize_roundtrip (raw : RawDoc) (p : Post)
    (h : parse raw = .ok p) :
    ∃ p2, parse (reserialize p) = .ok p2 ∧ p2.title = p.title ∧
      p2.date = p.date ∧ p2.categories = p.categories ∧
      p2.tags = p.tags := by
  obtain ⟨hdel, hval, hcat, htag, hext, hbody⟩ := parse_ok_elim raw p h
  have hdec : decodeDate (RawValue.scalarDate p.date) = some p.date := by
    simp [decodeDate, hval]
  have hparse2 : parse (reserialize p) =
      .ok { id := deriveId p.date p.title
            title := p.title
            date := p.date
            categories := normalizeSet p.categories
            tags := normalizeSet p.tags
            image := none
            extras := []
            body := p.body } := by
    show ((match decodeDate (RawValue.scalarDate p.date) with
        | none => Except.error ParseError.invalidDate
        | some ts =>
          Except.ok { id := deriveId ts p.title
                      title := p.title
                      date := ts
                      categories := normalizeSet p.categories
                      tags := normalizeSet p.tags
                      image := none
                      extras := []
                      body := p.body }) : Except ParseError Post) =
      Except.ok { id := deriveId p.date p.title
                  title := p.title
                  date := p.date
                  categories := normalizeSet p.categories
                  tags := normalizeSet p.tags
                  image := none
                  extras := []
                  body := p.body }
    rw [hdec]
  refine ⟨_, hparse2, rfl, rfl, ?_, ?_⟩
  · show normalizeSet p.categories = p.categories
    rw [hcat]
    exact normalizeSet_idem _
  · show normalizeSet p.tags = p.tags
    rw [htag]
    exact normalizeSet_idem _

/-- Witness for C7 at a concrete two-field document. -/
theorem parse_reserialize_roundtrip_witness :
    ∃ p2, parse (reserialize
        { id := "2023-1-29-Hi", title := "Hi",
          date := ⟨2023, 1, 29, 0, 0, 0⟩, categories := [], tags := [],
          image := none, extras := [], body := "b" }) = .ok p2 ∧
      p2.title = "Hi" ∧
      p2.date = ⟨2023, 1, 29, 0, 0, 0⟩ ∧
      p2.categories = ([] : List String) ∧
      p2.tags = ([] : List String) :=
  parse_reserialize_roundtrip
    { openedWithDelimiter := true
      fields :=
        [ ("title", RawValue.scalarStr "Hi")
        , ("date", RawValue.scalarDate ⟨2023, 1, 29, 0, 0, 0⟩) ]
      body := "b" }
    { id := "2023-1-29-Hi", title := "Hi",
      date := ⟨2023, 1, 29, 0, 0, 0⟩, categories := [], tags := [],
      image := none, extras := [], body := "b" }
    rfl
